import Mathlib

/-!
Shallow embedding of the bosh-rs simulation core (a line-rider style 2D sled
physics engine) for checking its specification.

Conventions of the embedding:
* Rust f64 values are modelled as exact rationals for the parts of the code
  that use only field operations, and as real numbers in the RealModel
  namespace for the collision-qualification code, which divides by a square
  root.  Decimal literals of the source are read at face value.
* Code of the repository that is not available (the grid rasterizer in
  src/linestore/grid.rs, the rider module, bone and line physics, and
  physics::advance_frame::frame_after) is either abstracted as an explicit
  function parameter or modelled from the spec; such definitions carry a
  doc comment saying so.
* Rust panics are modelled by Option, with none standing for an abort.
* Mutating methods become functions returning the updated value.
-/

/-- 2D vector of the game, a pair of f64 in the source (game/vector.rs is not
available; modelled from the spec, which lists add, sub, dot product for it). -/
structure Vector2D where
  x : ℚ
  y : ℚ
deriving DecidableEq

instance : Add Vector2D := ⟨fun a b => ⟨a.x + b.x, a.y + b.y⟩⟩

instance : Sub Vector2D := ⟨fun a b => ⟨a.x - b.x, a.y - b.y⟩⟩

/-- One endpoint of a line: a location and the per-end hitbox-extension flag. -/
structure LinePoint where
  location : Vector2D
  extended : Bool
deriving DecidableEq

/-- The closed set of line behaviours. -/
inductive LineType
  | Normal
  | Accelerate (amount : ℕ)
  | Scenery
deriving DecidableEq

/-- A static track line.  The first component of ends is the Rust field
ends.0, the second is ends.1.  extension_ratio is excluded from the source
PartialEq, which lineEq models. -/
structure Line where
  id : ℤ
  ends : LinePoint × LinePoint
  line_type : LineType
  flipped : Bool
  extension_ratio : ℚ
deriving DecidableEq

/-- The source PartialEq for Line: id, ends, line_type and flipped, with
extension_ratio ignored. -/
def lineEq (a b : Line) : Prop :=
  a.id = b.id ∧ a.ends = b.ends ∧ a.line_type = b.line_type ∧ a.flipped = b.flipped

instance (a b : Line) : Decidable (lineEq a b) := by
  unfold lineEq; exact instDecidableAnd

/-- The Default instance of the source: zero id, both ends at the origin and
not extended, Normal type, not flipped, extension_ratio 0.25. -/
def defaultLine : Line :=
  { id := 0
    ends := (⟨⟨0, 0⟩, false⟩, ⟨⟨0, 0⟩, false⟩)
    line_type := LineType.Normal
    flipped := false
    extension_ratio := 1/4 }

/-- Modelled from the spec: the spatial line grid of src/linestore/grid.rs,
which is not available.  A grid keeps every stored line in raw insertion
order (all_lines) and, per integer cell coordinate, the list of lines
overlapping that cell in append order (cells). -/
structure Grid where
  all_lines : List Line
  cell_size : ℚ
  cells : ℤ × ℤ → List Line

/-- The empty grid for a given cell size. -/
def Grid.empty (cs : ℚ) : Grid :=
  { all_lines := [], cell_size := cs, cells := fun _ => [] }

/-- Modelled from the spec: add_line rasterizes the segment and inserts the
line into every cell it intersects, in append order; the exact traversal of
grid.rs is not available, so the set of cells a line occupies is an explicit
parameter rast. -/
def Grid.add_line (rast : Line → List (ℤ × ℤ)) (g : Grid) (l : Line) : Grid :=
  { all_lines := g.all_lines ++ [l]
    cell_size := g.cell_size
    cells := fun c => if c ∈ rast l then g.cells c ++ [l] else g.cells c }

/-- Modelled from the spec: remove_line matches by full value equality and
removes one match from the cells holding it and from the raw list. -/
def Grid.remove_line (g : Grid) (l : Line) : Grid :=
  { all_lines := g.all_lines.eraseP (fun x => decide (lineEq x l))
    cell_size := g.cell_size
    cells := fun c => (g.cells c).eraseP (fun x => decide (lineEq x l)) }

/-- Modelled from the spec: a grid built by inserting the given lines in
order, as Grid::new does. -/
def Grid.new (rast : Line → List (ℤ × ℤ)) (lines : List Line) (cs : ℚ) : Grid :=
  lines.foldl (Grid.add_line rast) (Grid.empty cs)

/-- Modelled from the spec: the integer cell coordinate holding a point, for
the grid cell size. -/
def cellOf (cs : ℚ) (p : Vector2D) : ℤ × ℤ :=
  (Int.floor (p.x / cs), Int.floor (p.y / cs))

/-- The cell offsets -r, ..., r in ascending order. -/
def offs (r : ℕ) : List ℤ :=
  (List.range (2 * r + 1)).map (fun i => (i : ℤ) - (r : ℤ))

/-- Keep only the first encounter of each line, first occurrences in place,
duplicate detection by the source line equality. -/
def dedupFirst (l : List Line) : List Line :=
  l.foldl (fun acc x => if acc.any (fun y => decide (lineEq y x)) then acc else acc ++ [x]) []

/-- The concatenation of the visited cell lists of a query: cell offsets with
dx as the outer loop and dy as the inner loop, each cell contributing its
append-order list. -/
def Grid.cellScan (g : Grid) (p : Vector2D) (r : ℕ) : List Line :=
  (offs r).flatMap fun dx =>
    (offs r).flatMap fun dy =>
      g.cells ((cellOf g.cell_size p).1 + dx, (cellOf g.cell_size p).2 + dy)

/-- Modelled from the spec: lines_near visits the neighbouring cells of the
query point in the two-level order of cellScan and emits each line at its
first encounter only. -/
def Grid.lines_near (g : Grid) (p : Vector2D) (r : ℕ) : List Line :=
  dedupFirst (Grid.cellScan g p r)

/-- The engine configuration constants. -/
structure TrackMeta where
  line_extension_ratio : ℚ
  gravity_well_height : ℚ
  remount : Bool
  cell_size : ℚ
deriving DecidableEq

/-- The Default instance of TrackMeta in the source. -/
def TrackMeta.default : TrackMeta :=
  { line_extension_ratio := 1/4, gravity_well_height := 10, remount := false, cell_size := 14 }

/-- A track: configuration, the line grid and the frame cache
(precomputed_rider_positions).  The entity type is abstract here because the
rider module is not available; the cache logic of track.rs does not inspect
entities. -/
structure Track (E : Type) where
  meta : TrackMeta
  grid : Grid
  cache : List (List E)

/-- The extension loop of entity_positions_at: push the physics step of the
last cached frame n times.  The step function abstracts
physics::advance_frame::frame_after applied with this track, which is not
available.  The source unwraps the last element; the cache is nonempty in
every reachable state, and the default [] is never used under that invariant. -/
def extendCache {E : Type} (step : List E → List E) : ℕ → List (List E) → List (List E)
  | 0, c => c
  | n + 1, c => extendCache step n (c ++ [step (c.getLastD [])])

/-- Track::entity_positions_at: return the cached snapshot if present, else
extend the cache frame by frame up to the requested frame and return the last
snapshot.  Returns the updated track together with the answer, modelling the
RefCell mutation. -/
def Track.entity_positions_at {E : Type} (step : List E → List E) (t : Track E) (frame : ℕ) :
    Track E × List E :=
  match t.cache[frame]? with
  | some riders => (t, riders)
  | none =>
    let c := extendCache step (frame + 1 - t.cache.length) t.cache
    ({ t with cache := c }, c.getLastD [])

/-- Track::add_line: mutate the grid, then drain the cache past index 0. -/
def Track.add_line {E : Type} (rast : Line → List (ℤ × ℤ)) (t : Track E) (l : Line) : Track E :=
  { t with grid := Grid.add_line rast t.grid l, cache := t.cache.take 1 }

/-- Track::remove_line: mutate the grid, then drain the cache past index 0. -/
def Track.remove_line {E : Type} (t : Track E) (l : Line) : Track E :=
  { t with grid := Grid.remove_line t.grid l, cache := t.cache.take 1 }

/-- Track::create_entity: push the entity onto frame 0, then drain the cache
past index 0.  The source unwraps frame 0; none models that abort on an empty
cache. -/
def Track.create_entity {E : Type} (t : Track E) (e : E) : Option (Track E) :=
  match t.cache with
  | [] => none
  | f0 :: _ => some { t with cache := [f0 ++ [e]] }

/-- Track::remove_entity: remove the first value-equal entity from frame 0
and drain the cache, or signal not-found without touching the track.  The
outer Option models the frame-0 unwrap; the inner Option is the Rust return
value, none when no match was found. -/
def Track.remove_entity {E : Type} [DecidableEq E] (t : Track E) (e : E) :
    Option (Track E × Option Unit) :=
  match t.cache with
  | [] => none
  | f0 :: _ => if e ∈ f0 then some ({ t with cache := [f0.erase e] }, some ()) else some (t, none)

/-- Modelled from the spec: the closed tag set of anatomical point roles of
the rider module, which is not available; the tags are the ones the sources
under src refer to. -/
inductive PointIndex
  | BoshShoulder
  | BoshButt
  | BoshLeftHand
  | BoshRightHand
  | BoshLeftFoot
  | BoshRightFoot
  | SledPeg
  | SledTail
  | SledNose
  | SledRope
deriving DecidableEq

/-- A dynamic point of an entity. -/
structure EntityPoint where
  location : Vector2D
  previous_location : Vector2D
  momentum : Vector2D
  friction : ℚ
deriving DecidableEq

/-- Modelled from the spec: a rigid bone between two named points with a rest
length; breakable bones may signal a break.  Only p1 and p2 are read by the
code under src. -/
structure Bone where
  p1 : PointIndex
  p2 : PointIndex
  resting_length : ℚ
  breaking : Bool
deriving DecidableEq

/-- Modelled from the spec: a breakable joint referencing bones, evaluated
once per frame; its fields are not read by the code under src. -/
structure Joint where
  bones : List Bone
deriving DecidableEq

/-- Modelled from the spec: an entity as a keyed point map plus ordered bones
and joints.  The source point map is a HashMap; an association list stands in
for it. -/
structure Entity where
  points : List (PointIndex × EntityPoint)
  bones : List Bone
  joints : List Joint
deriving DecidableEq

/-- Entity::mutate_points: apply a function to every point value. -/
def Entity.mutate_points (e : Entity) (f : EntityPoint → EntityPoint) : Entity :=
  { e with points := e.points.map (fun kp => (kp.1, f kp.2)) }

/-- The effect of point_at_mut(k).location = v on the keyed point map. -/
def Entity.setLocation (e : Entity) (k : PointIndex) (v : Vector2D) : Entity :=
  { e with
    points := e.points.map (fun kp => if kp.1 = k then (kp.1, { kp.2 with location := v }) else kp) }

/-- The result of a bone or joint pass: still one entity, or split into the
bosh half and the sled half. -/
inductive UpdateBonesResult
  | Same (entity : Entity)
  | Broken (bosh : Entity) (sled : Entity)
deriving DecidableEq

/-- The functions the pipeline calls whose code is not under src, abstracted
as parameters: physics::bone_physics::next_bone_locations (none signals a
broken bone), physics::bone_physics::joint_should_break, Entity::split (the
fixed role partition of the rider module), and
physics::line_physics::apply_gravity_wells with the track argument fixed. -/
structure PhysicsCtx where
  next_bone_locations : Bone → Entity → Bool → Option (Vector2D × Vector2D)
  joint_should_break : Joint → Entity → Bool
  split : Entity → Entity × Entity
  well : EntityPoint → EntityPoint

/-- The loop of PhysicsEntity::apply_bones over the bone list, carrying the
broken flag: a returned pair of locations is written to the two bone ends,
none sets the flag and the remaining bones still run. -/
def Entity.applyBonesGo (ctx : PhysicsCtx) : List Bone → Entity → Bool → Entity × Bool
  | [], e, broken => (e, broken)
  | b :: rest, e, broken =>
    match ctx.next_bone_locations b e broken with
    | some (n1, n2) => Entity.applyBonesGo ctx rest ((e.setLocation b.p1 n1).setLocation b.p2 n2) broken
    | none => Entity.applyBonesGo ctx rest e true

/-- PhysicsEntity::apply_bones: run every bone, then split the mutated entity
when any bone broke. -/
def Entity.apply_bones (ctx : PhysicsCtx) (e : Entity) : UpdateBonesResult :=
  let r := Entity.applyBonesGo ctx e.bones e false
  if r.2 then UpdateBonesResult.Broken (ctx.split r.1).1 (ctx.split r.1).2
  else UpdateBonesResult.Same r.1

/-- PhysicsEntity::next_points: the once-per-frame integration step. -/
def Entity.next_points (e : Entity) (gravity : Vector2D) : Entity :=
  e.mutate_points fun p =>
    let new_velocity := (p.location - p.previous_location) + gravity
    { previous_location := p.location
      location := p.location + new_velocity
      momentum := new_velocity
      friction := p.friction }

/-- PhysicsEntity::apply_all_joints: split when any joint should break. -/
def Entity.apply_all_joints (ctx : PhysicsCtx) (e : Entity) : UpdateBonesResult :=
  if e.joints.any (fun j => ctx.joint_should_break j e) then
    UpdateBonesResult.Broken (ctx.split e).1 (ctx.split e).2
  else UpdateBonesResult.Same e

/-- PhysicsEntity::apply_gravity_wells: push every point by the line
collision response. -/
def Entity.apply_gravity_wells (ctx : PhysicsCtx) (e : Entity) : Entity :=
  e.mutate_points ctx.well

/-- UpdateBonesResult::unwrap_same: the entity of a Same, an abort (none) on
a Broken. -/
def UpdateBonesResult.unwrap_same : UpdateBonesResult → Option Entity
  | UpdateBonesResult.Same e => some e
  | UpdateBonesResult.Broken _ _ => none

/-- The bone half of one relaxation iteration of apply_all_physics: a Same
entity runs apply_bones directly, a Broken pair runs apply_bones on each half
and unwraps each result. -/
def boneStep (ctx : PhysicsCtx) : UpdateBonesResult → Option UpdateBonesResult
  | UpdateBonesResult.Same s => some (Entity.apply_bones ctx s)
  | UpdateBonesResult.Broken b s =>
    (Entity.apply_bones ctx b).unwrap_same.bind fun b2 =>
      (Entity.apply_bones ctx s).unwrap_same.bind fun s2 =>
        some (UpdateBonesResult.Broken b2 s2)

/-- The gravity-well half of one relaxation iteration: each live entity of
the result has its points pushed. -/
def gravityStep (ctx : PhysicsCtx) : UpdateBonesResult → UpdateBonesResult
  | UpdateBonesResult.Same s => UpdateBonesResult.Same (s.apply_gravity_wells ctx)
  | UpdateBonesResult.Broken b s =>
    UpdateBonesResult.Broken (b.apply_gravity_wells ctx) (s.apply_gravity_wells ctx)

/-- One full relaxation iteration of the loop in apply_all_physics. -/
def loopBody (ctx : PhysicsCtx) (r : UpdateBonesResult) : Option UpdateBonesResult :=
  (boneStep ctx r).map (gravityStep ctx)

/-- The relaxation loop run n times. -/
def loopN (ctx : PhysicsCtx) : ℕ → UpdateBonesResult → Option UpdateBonesResult
  | 0, r => some r
  | n + 1, r => (loopBody ctx r).bind (loopN ctx n)

/-- The final match of apply_all_physics: joints are evaluated on a Same
result only, a Broken result is returned as it is. -/
def jointStep (ctx : PhysicsCtx) : UpdateBonesResult → UpdateBonesResult
  | UpdateBonesResult.Same s => s.apply_all_joints ctx
  | UpdateBonesResult.Broken b s => UpdateBonesResult.Broken b s

/-- PhysicsEntity::apply_all_physics: integrate once, relax for the given
number of iterations, then evaluate joints. -/
def Entity.apply_all_physics (ctx : PhysicsCtx) (e : Entity) (gravity : Vector2D)
    (iterations : ℕ) : Option UpdateBonesResult :=
  (loopN ctx iterations (UpdateBonesResult.Same (e.next_points gravity))).map (jointStep ctx)

/-- The gravity vector the default pipeline passes: Vector2D(0.0, 0.175). -/
def ezGravity : Vector2D := ⟨0, 0.175⟩

/-- PhysicsEntity::apply_all_physics_ez: the default pipeline, six iterations
with the constant gravity above. -/
def Entity.apply_all_physics_ez (ctx : PhysicsCtx) (e : Entity) : Option UpdateBonesResult :=
  Entity.apply_all_physics ctx e ezGravity 6

namespace RealModel

/-- The C6 collision-qualification code divides by a square root, so this
namespace repeats the geometric data with f64 modelled as a real number. -/
structure Vector2D where
  x : ℝ
  y : ℝ

noncomputable instance : Add Vector2D := ⟨fun a b => ⟨a.x + b.x, a.y + b.y⟩⟩

noncomputable instance : Sub Vector2D := ⟨fun a b => ⟨a.x - b.x, a.y - b.y⟩⟩

noncomputable instance : Neg Vector2D := ⟨fun a => ⟨-a.x, -a.y⟩⟩

noncomputable instance : HDiv Vector2D ℝ Vector2D := ⟨fun a s => ⟨a.x / s, a.y / s⟩⟩

/-- Vector2D::dot_product. -/
noncomputable def Vector2D.dot_product (a b : Vector2D) : ℝ :=
  a.x * b.x + a.y * b.y

/-- Vector2D::distance_squared (modelled from the spec; vector.rs is not
available). -/
noncomputable def Vector2D.distance_squared (a b : Vector2D) : ℝ :=
  (a.x - b.x) ^ 2 + (a.y - b.y) ^ 2

/-- Vector2D length_squared (modelled from the spec). -/
noncomputable def Vector2D.length_squared (a : Vector2D) : ℝ :=
  a.x ^ 2 + a.y ^ 2

/-- Modelled from the spec: the quarter turn used for the upward line normal.
With y growing downward, the left turn of (x, y) is (y, -x); the convention
only fixes which side of a line is its top. -/
noncomputable def Vector2D.rotate90_left (a : Vector2D) : Vector2D :=
  ⟨a.y, -a.x⟩

/-- Modelled from the spec: the opposite quarter turn. -/
noncomputable def Vector2D.rotate90_right (a : Vector2D) : Vector2D :=
  ⟨-a.y, a.x⟩

/-- Vector2D length (modelled from the spec). -/
noncomputable def Vector2D.length (a : Vector2D) : ℝ :=
  Real.sqrt (a.x ^ 2 + a.y ^ 2)

/-- Vector2D::normalize (modelled from the spec). -/
noncomputable def Vector2D.normalize (a : Vector2D) : Vector2D :=
  a / a.length

/-- A line endpoint over real coordinates. -/
structure LinePoint where
  location : Vector2D
  extended : Bool

/-- A line over real coordinates. -/
structure Line where
  id : ℤ
  ends : LinePoint × LinePoint
  line_type : LineType
  flipped : Bool
  extension_ratio : ℝ

/-- Line::as_vector2d. -/
noncomputable def Line.as_vector2d (l : Line) : Vector2D :=
  l.ends.2.location - l.ends.1.location

/-- Line::length_squared. -/
noncomputable def Line.length_squared (l : Line) : ℝ :=
  l.ends.1.location.distance_squared l.ends.2.location

/-- Line::perpendicular: the upward unit normal, the right turn when the line
is flipped and the left turn otherwise. -/
noncomputable def Line.perpendicular (l : Line) : Vector2D :=
  if l.flipped then l.as_vector2d.rotate90_right.normalize
  else l.as_vector2d.rotate90_left.normalize

/-- Line::hitbox_extensions: the clamped extension length on each end whose
extended flag is set. -/
noncomputable def Line.hitbox_extensions (l : Line) : ℝ × ℝ :=
  let clamped_len := max 0 (min (Real.sqrt l.length_squared * l.extension_ratio) 10)
  (if l.ends.1.extended then clamped_len else 0, if l.ends.2.extended then clamped_len else 0)

/-- An entity point over real coordinates. -/
structure EntityPoint where
  location : Vector2D
  previous_location : Vector2D
  momentum : Vector2D
  friction : ℝ

/-- Track::distance_below_line, with the track replaced by the only field it
reads, the gravity-well height of its meta. -/
noncomputable def distance_below_line (gravity_well_height : ℝ) (line : Line)
    (point : EntityPoint) : ℝ :=
  let line_vec := line.as_vector2d
  let point_from_start := point.location - line.ends.1.location
  let perpendicular := line.perpendicular
  let is_moving_into_line := perpendicular.dot_product point.momentum < 0
  if ¬ is_moving_into_line then 0
  else
    let line_length := Real.sqrt line_vec.length_squared
    let line_normalized := line_vec / line_length
    let ext := line.hitbox_extensions
    let parallel_component := point_from_start.dot_product line_normalized
    if parallel_component < -ext.1 ∨ ext.2 + line_length < parallel_component then 0
    else
      let distance_below := (-perpendicular).dot_product point_from_start
      if 0 < distance_below ∧ distance_below < gravity_well_height then distance_below
      else 0

end RealModel

/-- The line construction builder: the two location-set flags and the line
being built. -/
structure LineBuilder where
  first_location_init : Bool
  second_location_init : Bool
  line : Line
deriving DecidableEq

/-- Line::builder. -/
def Line.builder : LineBuilder :=
  { first_location_init := false, second_location_init := false, line := defaultLine }

/-- LineBuilder::id. -/
def LineBuilder.id (b : LineBuilder) (i : ℤ) : LineBuilder :=
  { b with line := { b.line with id := i } }

/-- LineBuilder::extension_ratio. -/
def LineBuilder.extension_ratio (b : LineBuilder) (r : ℚ) : LineBuilder :=
  { b with line := { b.line with extension_ratio := r } }

/-- LineBuilder::line_type. -/
def LineBuilder.line_type (b : LineBuilder) (t : LineType) : LineBuilder :=
  { b with line := { b.line with line_type := t } }

/-- LineBuilder::flipped. -/
def LineBuilder.flipped (b : LineBuilder) (f : Bool) : LineBuilder :=
  { b with line := { b.line with flipped := f } }

/-- LineBuilder::point: locate end 0 the first time, end 1 afterwards. -/
def LineBuilder.point (b : LineBuilder) (p1 p2 : ℚ) : LineBuilder :=
  if !b.first_location_init then
    { b with
      first_location_init := true
      line := { b.line with ends := ({ b.line.ends.1 with location := ⟨p1, p2⟩ }, b.line.ends.2) } }
  else
    { b with
      second_location_init := true
      line := { b.line with ends := (b.line.ends.1, { b.line.ends.2 with location := ⟨p1, p2⟩ }) } }

/-- LineBuilder::point_vec: the same with a vector argument. -/
def LineBuilder.point_vec (b : LineBuilder) (p : Vector2D) : LineBuilder :=
  if !b.first_location_init then
    { b with
      first_location_init := true
      line := { b.line with ends := ({ b.line.ends.1 with location := p }, b.line.ends.2) } }
  else
    { b with
      second_location_init := true
      line := { b.line with ends := (b.line.ends.1, { b.line.ends.2 with location := p }) } }

/-- LineBuilder::extended: aborts (none) before any location is set;
otherwise flags end 0 while only the first location is set, end 1 once the
second is. -/
def LineBuilder.extended (b : LineBuilder) (e : Bool) : Option LineBuilder :=
  if !b.first_location_init then none
  else if !b.second_location_init then
    some { b with line := { b.line with ends := ({ b.line.ends.1 with extended := e }, b.line.ends.2) } }
  else
    some { b with line := { b.line with ends := (b.line.ends.1, { b.line.ends.2 with extended := e }) } }

/-- LineBuilder::build. -/
def LineBuilder.build (b : LineBuilder) : Line :=
  b.line

/-- One call of the builder API, for quantifying over call sequences. -/
inductive BuilderOp
  | id (i : ℤ)
  | extension_ratio (r : ℚ)
  | line_type (t : LineType)
  | flipped (f : Bool)
  | point (p1 p2 : ℚ)
  | point_vec (p : Vector2D)
  | extended (e : Bool)

/-- Run one builder call; only extended can abort. -/
def applyOp (op : BuilderOp) (b : LineBuilder) : Option LineBuilder :=
  match op with
  | BuilderOp.id i => some (b.id i)
  | BuilderOp.extension_ratio r => some (b.extension_ratio r)
  | BuilderOp.line_type t => some (b.line_type t)
  | BuilderOp.flipped f => some (b.flipped f)
  | BuilderOp.point p1 p2 => some (b.point p1 p2)
  | BuilderOp.point_vec p => some (b.point_vec p)
  | BuilderOp.extended e => b.extended e

/-- Run a sequence of builder calls, aborting as soon as one aborts. -/
def runOps : List BuilderOp → LineBuilder → Option LineBuilder
  | [], b => some b
  | op :: ops, b => (applyOp op b).bind (runOps ops)

/-- Helper: running the relaxation loop for a sum of counts composes. -/
theorem loopN_add (ctx : PhysicsCtx) (a b : ℕ) (r : UpdateBonesResult) :
    loopN ctx (a + b) r = (loopN ctx a r).bind (fun r2 => loopN ctx b r2) := by
  induction a generalizing r with
  | zero => simp [loopN]
  | succ a ih =>
    rw [Nat.succ_add]
    simp only [loopN]
    cases loopBody ctx r with
    | none => simp
    | some r2 => simp [ih]

/-- C4: the integration step sets, for every point, previous_location to the
old location, location to the old location plus the velocity
(location - previous_location) + gravity, momentum to that velocity, and
keeps friction, the point keys and the bone and joint lists unchanged. -/
theorem next_points_integration (g : Vector2D) (e : Entity) :
    (e.next_points g).points = e.points.map (fun kp =>
      (kp.1,
        { location := kp.2.location + ((kp.2.location - kp.2.previous_location) + g)
          previous_location := kp.2.location
          momentum := (kp.2.location - kp.2.previous_location) + g
          friction := kp.2.friction }))
    ∧ (e.next_points g).points.map Prod.fst = e.points.map Prod.fst
    ∧ (e.next_points g).bones = e.bones ∧ (e.next_points g).joints = e.joints := by
  refine ⟨rfl, ?_, rfl, rfl⟩
  simp [Entity.next_points, Entity.mutate_points]

/-- C2 (amended): the default pipeline is apply_all_physics with exactly six
relaxation iterations and one integration step, and its gravity is the
constant vector (0, 0.175): strictly downward (positive y in this
y-grows-downward world), with no horizontal bias. -/
theorem apply_all_physics_ez_constants (ctx : PhysicsCtx) (e : Entity) :
    Entity.apply_all_physics_ez ctx e = Entity.apply_all_physics ctx e ezGravity 6
    ∧ Entity.apply_all_physics_ez ctx e =
        (loopN ctx 6 (UpdateBonesResult.Same (e.next_points ezGravity))).map (jointStep ctx)
    ∧ ezGravity = ⟨0, 0.175⟩ ∧ 0 < ezGravity.y ∧ ezGravity.x = 0 := by
  refine ⟨rfl, rfl, rfl, ?_, rfl⟩
  norm_num [ezGravity]

/-- C2 counterexample: the default gravity has no forward (positive-x)
component, refuting the claimed small positive-x bias. -/
theorem apply_all_physics_ez_no_forward_bias : ¬ 0 < ezGravity.x := by
  norm_num [ezGravity]

/-- C5: once the pipeline state is Broken, any number of further relaxation
iterations that completes yields a Broken state again; one iteration on a
Broken pair applies bones and then gravity wells to each half independently;
and the final joint-evaluation step returns a Broken result unchanged. -/
theorem broken_never_rejoins (ctx : PhysicsCtx) :
    (∀ n b s st, loopN ctx n (UpdateBonesResult.Broken b s) = some st →
        ∃ b2 s2, st = UpdateBonesResult.Broken b2 s2)
    ∧ (∀ b s b2 s2, Entity.apply_bones ctx b = UpdateBonesResult.Same b2 →
        Entity.apply_bones ctx s = UpdateBonesResult.Same s2 →
        loopBody ctx (UpdateBonesResult.Broken b s) =
          some (UpdateBonesResult.Broken (b2.apply_gravity_wells ctx) (s2.apply_gravity_wells ctx)))
    ∧ (∀ b s, jointStep ctx (UpdateBonesResult.Broken b s) = UpdateBonesResult.Broken b s) := by
  refine ⟨?_, ?_, fun b s => rfl⟩
  · intro n
    induction n with
    | zero =>
      intro b s st h
      simp only [loopN, Option.some.injEq] at h
      exact ⟨b, s, h.symm⟩
    | succ n ih =>
      intro b s st h
      simp only [loopN] at h
      cases hb : Entity.apply_bones ctx b with
      | Broken x y =>
        simp [loopBody, boneStep, hb, UpdateBonesResult.unwrap_same] at h
      | Same b2 =>
        cases hs : Entity.apply_bones ctx s with
        | Broken x y =>
          simp [loopBody, boneStep, hb, hs, UpdateBonesResult.unwrap_same] at h
        | Same s2 =>
          simp only [loopBody, boneStep, hb, hs, UpdateBonesResult.unwrap_same,
            Option.bind_some, Option.map_some, gravityStep] at h
          exact ih _ _ _ h
  · intro b s b2 s2 h1 h2
    simp [loopBody, boneStep, h1, h2, UpdateBonesResult.unwrap_same, gravityStep]

/-- A context whose bone pass never breaks and pushes nothing, for witnesses. -/
def ctxCalm : PhysicsCtx :=
  { next_bone_locations := fun _ _ _ => some (⟨0, 0⟩, ⟨0, 0⟩)
    joint_should_break := fun _ _ => false
    split := fun e => (e, e)
    well := fun p => p }

/-- A context whose bone pass always signals a break, for witnesses. -/
def ctxBreak : PhysicsCtx :=
  { next_bone_locations := fun _ _ _ => none
    joint_should_break := fun _ _ => false
    split := fun e => (e, e)
    well := fun p => p }

/-- The empty entity, for witnesses. -/
def entity0 : Entity := ⟨[], [], []⟩

/-- An entity with one bone, for witnesses. -/
def entityB : Entity :=
  ⟨[], [⟨PointIndex.SledPeg, PointIndex.SledTail, 0, false⟩], []⟩

/-- Witness for C5 at a concrete context and entity pair. -/
theorem broken_never_rejoins_witness :
    (∃ b2 s2, (UpdateBonesResult.Broken entity0 entity0 : UpdateBonesResult) =
        UpdateBonesResult.Broken b2 s2)
    ∧ jointStep ctxCalm (UpdateBonesResult.Broken entity0 entity0) =
        UpdateBonesResult.Broken entity0 entity0 :=
  ⟨(broken_never_rejoins ctxCalm).1 1 entity0 entity0
      (UpdateBonesResult.Broken entity0 entity0) rfl,
    (broken_never_rejoins ctxCalm).2.2 entity0 entity0⟩

/-- C10: after a split, a bone pass that signals a further break on either
half aborts: the iteration body returns none, every longer run from that
state returns none, and a full apply_all_physics run that reaches that state
before its last iteration returns none. -/
theorem post_split_break_aborts (ctx : PhysicsCtx) (b s : Entity)
    (h : (∃ x y, Entity.apply_bones ctx b = UpdateBonesResult.Broken x y) ∨
         (∃ x y, Entity.apply_bones ctx s = UpdateBonesResult.Broken x y)) :
    loopBody ctx (UpdateBonesResult.Broken b s) = none
    ∧ (∀ m, loopN ctx (m + 1) (UpdateBonesResult.Broken b s) = none)
    ∧ (∀ e g k i, loopN ctx k (UpdateBonesResult.Same (e.next_points g)) =
          some (UpdateBonesResult.Broken b s) →
        k < i → Entity.apply_all_physics ctx e g i = none) := by
  have hbody : loopBody ctx (UpdateBonesResult.Broken b s) = none := by
    rcases h with ⟨x, y, hb⟩ | ⟨x, y, hs⟩
    · simp [loopBody, boneStep, hb, UpdateBonesResult.unwrap_same]
    · cases hb : Entity.apply_bones ctx b with
      | Broken u v => simp [loopBody, boneStep, hb, UpdateBonesResult.unwrap_same]
      | Same b2 => simp [loopBody, boneStep, hb, hs, UpdateBonesResult.unwrap_same]
  have hrun : ∀ m, loopN ctx (m + 1) (UpdateBonesResult.Broken b s) = none := by
    intro m
    have : (1 : ℕ) + m = m + 1 := Nat.add_comm 1 m
    rw [← this, loopN_add]
    simp [loopN, hbody]
  refine ⟨hbody, hrun, ?_⟩
  intro e g k i hk hlt
  obtain ⟨m, rfl⟩ : ∃ m, i = k + (m + 1) := ⟨i - k - 1, by omega⟩
  unfold Entity.apply_all_physics
  rw [loopN_add, hk]
  simp [hrun m]

/-- Witness for C10 at a concrete breaking context and entity. -/
theorem post_split_break_aborts_witness :
    (Entity.apply_bones ctxBreak entityB = UpdateBonesResult.Broken entityB entityB)
    ∧ loopBody ctxBreak (UpdateBonesResult.Broken entityB entityB) = none :=
  ⟨rfl,
    (post_split_break_aborts ctxBreak entityB entityB (Or.inl ⟨entityB, entityB, rfl⟩)).1⟩

/-- C7: add_line and remove_line mutate only the grid and truncate the cache
to exactly frame 0; create_entity appends the new entity to frame 0 and
truncates the cache; nothing else of the track changes, and the cache length
is exactly one afterwards. -/
theorem mutations_truncate_cache {E : Type} (rast : Line → List (ℤ × ℤ)) (t : Track E)
    (l : Line) (e : E) (f0 : List E) (rest : List (List E)) (hc : t.cache = f0 :: rest) :
    Track.add_line rast t l =
      { meta := t.meta, grid := Grid.add_line rast t.grid l, cache := [f0] }
    ∧ Track.remove_line t l =
      { meta := t.meta, grid := Grid.remove_line t.grid l, cache := [f0] }
    ∧ Track.create_entity t e = some { meta := t.meta, grid := t.grid, cache := [f0 ++ [e]] }
    ∧ (Track.add_line rast t l).cache.length = 1
    ∧ (Track.remove_line t l).cache.length = 1 := by
  cases t with
  | mk m g c =>
    cases hc
    simp [Track.add_line, Track.remove_line, Track.create_entity]

/-- A concrete track over natural-number entities, for witnesses. -/
def trackW : Track ℕ := ⟨TrackMeta.default, Grid.empty 14, [[1], [2]]⟩

/-- Witness for C7 at a concrete track, line and entity. -/
theorem mutations_truncate_cache_witness :
    Track.add_line (fun _ => []) trackW defaultLine =
      { meta := trackW.meta, grid := Grid.add_line (fun _ => []) trackW.grid defaultLine,
        cache := [[1]] }
    ∧ Track.remove_line trackW defaultLine =
      { meta := trackW.meta, grid := Grid.remove_line trackW.grid defaultLine, cache := [[1]] }
    ∧ Track.create_entity trackW 7 =
      some { meta := trackW.meta, grid := trackW.grid, cache := [[1] ++ [7]] }
    ∧ (Track.add_line (fun _ => []) trackW defaultLine).cache.length = 1
    ∧ (Track.remove_line trackW defaultLine).cache.length = 1 :=
  mutations_truncate_cache (fun _ => []) trackW defaultLine 7 [1] [[2]] rfl

/-- C8: remove_entity signals not-found, leaving the whole track (frame 0 and
the rest of the cache) untouched, exactly when no value-equal entity is in
frame 0; on a match it erases the first value-equal entity from frame 0 and
truncates the cache to that single frame. -/
theorem remove_entity_spec {E : Type} [DecidableEq E] (t : Track E) (e : E)
    (f0 : List E) (rest : List (List E)) (hc : t.cache = f0 :: rest) :
    (Track.remove_entity t e = some (t, none) ↔ e ∉ f0)
    ∧ (e ∈ f0 →
        Track.remove_entity t e =
          some ({ meta := t.meta, grid := t.grid, cache := [f0.erase e] }, some ())) := by
  cases t with
  | mk m g c =>
    cases hc
    by_cases hm : e ∈ f0
    · have hne : Track.remove_entity (⟨m, g, f0 :: rest⟩ : Track E) e =
          some (⟨m, g, [f0.erase e]⟩, some ()) := by
        simp [Track.remove_entity, hm]
      refine ⟨?_, fun _ => hne⟩
      rw [hne]
      simp [hm]
    · simp [Track.remove_entity, hm]

/-- Witness for C8: a missing entity is reported as not found with the track
unchanged, and a present entity is erased from frame 0. -/
theorem remove_entity_spec_witness :
    (Track.remove_entity trackW 5 = some (trackW, none) ↔ 5 ∉ [1])
    ∧ Track.remove_entity trackW 1 =
        some ({ meta := trackW.meta, grid := trackW.grid, cache := [List.erase [1] 1] },
          some ()) :=
  ⟨(remove_entity_spec trackW 5 [1] [[2]] rfl).1,
    (remove_entity_spec trackW 1 [1] [[2]] rfl).2 (by simp)⟩

/-- Helper: under the cache invariant, the last cached frame is the
(length - 1)-fold step of frame 0. -/
theorem cache_lastD {E : Type} (step : List E → List E) (f0 : List E) (cl : List (List E))
    (hne : cl ≠ []) (hinv : ∀ i x, cl[i]? = some x → x = step^[i] f0) :
    cl.getLastD [] = step^[cl.length - 1] f0 := by
  have hlt : cl.length - 1 < cl.length := by
    cases cl with
    | nil => exact absurd rfl hne
    | cons a l => simp
  have h2 : cl[cl.length - 1]? = some cl[cl.length - 1] := List.getElem?_eq_getElem hlt
  have h3 : cl.getLastD [] = cl[cl.length - 1] := by
    rw [List.getLastD_eq_getLast?, List.getLast?_eq_getElem?, h2]
    rfl
  rw [h3]
  exact hinv _ _ h2

/-- Helper: extending the cache n times keeps the invariant, keeps it
nonempty and adds exactly n frames. -/
theorem extendCache_spec {E : Type} (step : List E → List E) (f0 : List E) :
    ∀ (n : ℕ) (cl : List (List E)), cl ≠ [] →
      (∀ i x, cl[i]? = some x → x = step^[i] f0) →
      (extendCache step n cl).length = cl.length + n
      ∧ extendCache step n cl ≠ []
      ∧ ∀ i x, (extendCache step n cl)[i]? = some x → x = step^[i] f0 := by
  intro n
  induction n with
  | zero => exact fun cl hne hinv => ⟨rfl, hne, hinv⟩
  | succ n ih =>
    intro cl hne hinv
    have hlast := cache_lastD step f0 cl hne hinv
    have hne2 : cl ++ [step (cl.getLastD [])] ≠ [] := by simp
    have hinv2 : ∀ i x, (cl ++ [step (cl.getLastD [])])[i]? = some x → x = step^[i] f0 := by
      intro i x h
      rcases Nat.lt_or_ge i cl.length with hi | hi
      · rw [List.getElem?_append, if_pos hi] at h
        exact hinv i x h
      · rw [List.getElem?_append_right hi] at h
        have hlt1 : i - cl.length < 1 := by
          by_contra hge
          push_neg at hge
          rw [List.getElem?_eq_none_iff.mpr (by simpa using hge)] at h
          exact Option.noConfusion h
        have hi0 : i - cl.length = 0 := by omega
        rw [hi0] at h
        simp only [List.getElem?_cons_zero, Option.some.injEq] at h
        have hieq : i = cl.length := by omega
        have hpos : 1 ≤ cl.length := List.length_pos.mpr hne
        subst hieq
        rw [← h, hlast, ← Function.iterate_succ_apply' step]
        congr 1
        omega
    obtain ⟨hl, hn, hi⟩ := ih (cl ++ [step (cl.getLastD [])]) hne2 hinv2
    have hstep : extendCache step (n + 1) cl =
        extendCache step n (cl ++ [step (cl.getLastD [])]) := rfl
    rw [hstep]
    refine ⟨?_, hn, hi⟩
    rw [hl]
    simp
    omega

/-- C1: under the cache invariant (every cached frame i equals the i-fold
step of frame 0), entity_positions_at n answers the n-fold step of frame 0 -
the same as a fresh recomputation, whatever was cached - and afterwards the
cache is the gapless prefix of length max(previous length, n + 1) whose
every entry i is the i-fold step of frame 0. -/
theorem entity_positions_at_cache_correct {E : Type} (step : List E → List E) (t : Track E)
    (n : ℕ) (f0 : List E) (hne : t.cache ≠ [])
    (hinv : ∀ i x, t.cache[i]? = some x → x = step^[i] f0) :
    (t.entity_positions_at step n).2 = step^[n] f0
    ∧ (t.entity_positions_at step n).1.cache.length = max t.cache.length (n + 1)
    ∧ ∀ i x, (t.entity_positions_at step n).1.cache[i]? = some x → x = step^[i] f0 := by
  rcases h : t.cache[n]? with _ | riders
  · have hge : t.cache.length ≤ n := List.getElem?_eq_none_iff.mp h
    obtain ⟨hl, hn2, hi⟩ :=
      extendCache_spec step f0 (n + 1 - t.cache.length) t.cache hne hinv
    have hres : t.entity_positions_at step n =
        ({ t with cache := extendCache step (n + 1 - t.cache.length) t.cache },
          (extendCache step (n + 1 - t.cache.length) t.cache).getLastD []) := by
      unfold Track.entity_positions_at
      rw [h]
    rw [hres]
    have hlen : (extendCache step (n + 1 - t.cache.length) t.cache).length = n + 1 := by
      rw [hl]; omega
    refine ⟨?_, ?_, hi⟩
    · rw [cache_lastD step f0 _ hn2 hi, hlen]
      simp
    · simp only [hlen]
      omega
  · have hres : t.entity_positions_at step n = (t, riders) := by
      unfold Track.entity_positions_at
      rw [h]
    have hlt : n < t.cache.length := by
      by_contra hge
      push_neg at hge
      rw [List.getElem?_eq_none_iff.mpr hge] at h
      exact Option.noConfusion h
    rw [hres]
    refine ⟨hinv n riders h, ?_, hinv⟩
    show t.cache.length = max t.cache.length (n + 1)
    omega

/-- Witness for C1 at a concrete step function, two-frame cache and frame 2. -/
theorem entity_positions_at_cache_correct_witness :
    (Track.entity_positions_at (fun l => l.map (fun x => x + 1)) trackW 2).2 =
      (fun l : List ℕ => l.map (fun x => x + 1))^[2] [1]
    ∧ (Track.entity_positions_at (fun l => l.map (fun x => x + 1)) trackW 2).1.cache.length =
      max trackW.cache.length 3 := by
  have h := entity_positions_at_cache_correct (fun l : List ℕ => l.map (fun x => x + 1))
    trackW 2 [1] (by simp [trackW]) ?_
  · exact ⟨h.1, h.2.1⟩
  · intro i x hx
    match i with
    | 0 =>
      simp [trackW] at hx
      simp [hx.symm]
    | 1 =>
      simp [trackW] at hx
      simp [hx.symm, Function.iterate_one]
    | (i + 2) =>
      simp [trackW] at hx

/-- The builder invariant of C9: an extended flag is only ever set on an end
whose location has been set, and the second location is never set before the
first. -/
def BuilderInv (b : LineBuilder) : Prop :=
  (b.line.ends.1.extended = true → b.first_location_init = true)
  ∧ (b.line.ends.2.extended = true → b.second_location_init = true)
  ∧ (b.second_location_init = true → b.first_location_init = true)

/-- Helper: every builder call that returns preserves the builder invariant. -/
theorem applyOp_inv (op : BuilderOp) (b b2 : LineBuilder) (hb : BuilderInv b)
    (h : applyOp op b = some b2) : BuilderInv b2 := by
  obtain ⟨h1, h2, h3⟩ := hb
  cases op with
  | id i =>
    cases Option.some.injEq _ _ |>.mp h
    exact ⟨h1, h2, h3⟩
  | extension_ratio r =>
    cases Option.some.injEq _ _ |>.mp h
    exact ⟨h1, h2, h3⟩
  | line_type t =>
    cases Option.some.injEq _ _ |>.mp h
    exact ⟨h1, h2, h3⟩
  | flipped f =>
    cases Option.some.injEq _ _ |>.mp h
    exact ⟨h1, h2, h3⟩
  | point p1 p2 =>
    simp only [applyOp, LineBuilder.point] at h
    by_cases hf : b.first_location_init <;>
      simp only [hf, Bool.not_true, Bool.not_false, if_true, if_false,
        Bool.false_eq_true] at h <;> cases Option.some.injEq _ _ |>.mp h
    · exact ⟨fun _ => rfl, fun _ => rfl, fun _ => rfl⟩
    · exact ⟨fun _ => rfl, fun hx => h2 hx, fun _ => rfl⟩
  | point_vec p =>
    simp only [applyOp, LineBuilder.point_vec] at h
    by_cases hf : b.first_location_init <;>
      simp only [hf, Bool.not_true, Bool.not_false, if_true, if_false,
        Bool.false_eq_true] at h <;> cases Option.some.injEq _ _ |>.mp h
    · exact ⟨fun _ => rfl, fun _ => rfl, fun _ => rfl⟩
    · exact ⟨fun _ => rfl, fun hx => h2 hx, fun _ => rfl⟩
  | extended e =>
    simp only [applyOp, LineBuilder.extended] at h
    by_cases hf : b.first_location_init
    · by_cases hs : b.second_location_init
      · simp only [hf, hs, Bool.not_true, if_false, Bool.false_eq_true] at h
        cases Option.some.injEq _ _ |>.mp h
        exact ⟨fun _ => rfl, fun _ => rfl, fun _ => rfl⟩
      · simp only [hf, hs, Bool.not_true, Bool.not_false, if_false, if_true,
          Bool.false_eq_true] at h
        cases Option.some.injEq _ _ |>.mp h
        exact ⟨fun _ => rfl, fun hx => absurd (h2 hx) (by simp [hs]), fun _ => rfl⟩
    · simp [hf] at h

/-- Helper: the invariant holds after any returning run of builder calls
from a builder satisfying it. -/
theorem runOps_inv : ∀ (ops : List BuilderOp) (b b2 : LineBuilder), BuilderInv b →
    runOps ops b = some b2 → BuilderInv b2 := by
  intro ops
  induction ops with
  | nil =>
    intro b b2 hb h
    cases Option.some.injEq _ _ |>.mp h
    exact hb
  | cons op ops ih =>
    intro b b2 hb h
    simp only [runOps] at h
    cases hop : applyOp op b with
    | none => rw [hop] at h; exact Option.noConfusion h
    | some mid =>
      rw [hop] at h
      exact ih mid b2 (applyOp_inv op b mid hb hop) h

/-- C9: for every builder reached by a returning sequence of builder calls
from Line::builder, a call of extended aborts exactly when no endpoint
location has been set yet; with only the first location set it returns the
builder with end 0 flagged, with the second location set it returns the
builder with end 1 flagged; and no end is ever flagged before its location
is set. -/
theorem line_builder_extended_safety (ops : List BuilderOp) (b : LineBuilder)
    (h : runOps ops Line.builder = some b) :
    (∀ e, b.extended e = none ↔
      ¬ (b.first_location_init = true ∨ b.second_location_init = true))
    ∧ (b.line.ends.1.extended = true → b.first_location_init = true)
    ∧ (b.line.ends.2.extended = true → b.second_location_init = true)
    ∧ (∀ e, b.first_location_init = true → b.second_location_init = false →
        b.extended e = some { b with
          line := { b.line with ends := ({ b.line.ends.1 with extended := e }, b.line.ends.2) } })
    ∧ (∀ e, b.second_location_init = true →
        b.extended e = some { b with
          line := { b.line with ends := (b.line.ends.1, { b.line.ends.2 with extended := e }) } }) := by
  have hstart : BuilderInv Line.builder := by
    refine ⟨?_, ?_, ?_⟩ <;> intro hx <;> simp [Line.builder, defaultLine] at hx
  have hinv := runOps_inv ops Line.builder b hstart h
  refine ⟨?_, hinv.1, hinv.2.1, ?_, ?_⟩
  · intro e
    by_cases hf : b.first_location_init
    · constructor
      · intro hnone
        exfalso
        by_cases hs : b.second_location_init <;>
          simp [LineBuilder.extended, hf, hs] at hnone
      · intro hno
        exact absurd (Or.inl hf) hno
    · have hs : b.second_location_init = false := by
        by_contra hs2
        exact hf (hinv.2.2 (by simpa using hs2))
      simp [LineBuilder.extended, hf, hs]
  · intro e h1 h2
    simp [LineBuilder.extended, h1, h2]
  · intro e h2
    have h1 : b.first_location_init = true := hinv.2.2 h2
    simp [LineBuilder.extended, h1, h2]

/-- The builder state after locating one point and flagging it, for the C9
witness. -/
def builderW : LineBuilder :=
  ⟨true, false, ⟨0, (⟨⟨0, 0⟩, true⟩, ⟨⟨0, 0⟩, false⟩), LineType.Normal, false, 1/4⟩⟩

/-- Witness for C9 at a concrete call sequence. -/
theorem line_builder_extended_safety_witness :
    LineBuilder.extended builderW false = some { builderW with
      line := { builderW.line with
        ends := ({ builderW.line.ends.1 with extended := false }, builderW.line.ends.2) } }
    ∧ (builderW.line.ends.1.extended = true → builderW.first_location_init = true) :=
  ⟨(line_builder_extended_safety [BuilderOp.point 0 0, BuilderOp.extended true] builderW
      rfl).2.2.2.1 false rfl rfl,
    (line_builder_extended_safety [BuilderOp.point 0 0, BuilderOp.extended true] builderW
      rfl).2.1⟩

/-- Helper: the cell lists of a built grid are the inserted lines in
insertion order, filtered to the lines occupying the cell. -/
theorem foldl_add_line_cells (rast : Line → List (ℤ × ℤ)) :
    ∀ (L : List Line) (g : Grid) (cell : ℤ × ℤ),
      (L.foldl (Grid.add_line rast) g).cells cell =
        g.cells cell ++ L.filter (fun l => decide (cell ∈ rast l)) := by
  intro L
  induction L with
  | nil => intro g cell; simp
  | cons l L ih =>
    intro g cell
    rw [List.foldl_cons, ih]
    by_cases hc : cell ∈ rast l <;>
      simp [Grid.add_line, hc, List.filter_cons]

/-- Helper: building a grid does not change the cell size. -/
theorem foldl_add_line_cell_size (rast : Line → List (ℤ × ℤ)) :
    ∀ (L : List Line) (g : Grid), (L.foldl (Grid.add_line rast) g).cell_size = g.cell_size := by
  intro L
  induction L with
  | nil => intro g; rfl
  | cons l L ih => intro g; rw [List.foldl_cons, ih]; rfl

/-- Helper: the first-encounter dedup keeps at most one member of each
line-equality class. -/
theorem dedupFirst_go_pairwise :
    ∀ (L acc : List Line), acc.Pairwise (fun a b => ¬ lineEq a b) →
      (L.foldl (fun acc x =>
          if acc.any (fun y => decide (lineEq y x)) then acc else acc ++ [x]) acc).Pairwise
        (fun a b => ¬ lineEq a b) := by
  intro L
  induction L with
  | nil => exact fun acc h => h
  | cons x L ih =>
    intro acc hacc
    rw [List.foldl_cons]
    by_cases hmem : acc.any (fun y => decide (lineEq y x))
    · rw [if_pos hmem]
      exact ih acc hacc
    · rw [if_neg hmem]
      refine ih (acc ++ [x]) ?_
      rw [List.pairwise_append]
      refine ⟨hacc, List.pairwise_singleton _ _, ?_⟩
      intro a ha b hb
      rw [List.mem_singleton] at hb
      subst hb
      intro hab
      exact hmem (List.any_eq_true.mpr ⟨a, ha, decide_eq_true hab⟩)

/-- Helper: a filter over a pairwise cell-disjoint line list keeps at most
one line. -/
theorem filter_disjoint_length_le_one (rast : Line → List (ℤ × ℤ)) :
    ∀ (L : List Line), L.Pairwise (fun l1 l2 => ∀ cell, cell ∈ rast l1 → cell ∉ rast l2) →
      ∀ cell, (L.filter (fun l => decide (cell ∈ rast l))).length ≤ 1 := by
  intro L
  induction L with
  | nil => intro _ cell; simp
  | cons l L ih =>
    intro hp cell
    rw [List.pairwise_cons] at hp
    by_cases hc : cell ∈ rast l
    · have hrest : L.filter (fun l2 => decide (cell ∈ rast l2)) = [] := by
        rw [List.filter_eq_nil_iff]
        intro a ha
        simpa using hp.1 a ha cell hc
      simp [List.filter_cons, hc, hrest]
    · simpa [List.filter_cons, hc] using ih hp.2 cell

/-- Helper: a permutation of a list of length at most one is that list. -/
theorem perm_length_le_one_eq {α : Type} {l1 l2 : List α} (hp : l1.Perm l2)
    (hl : l2.length ≤ 1) : l1 = l2 := by
  match l2, hl with
  | [], _ => exact hp.eq_nil
  | [a], _ => exact List.perm_singleton.mp hp

/-- C3: on a grid built from cell-disjoint lines, lines_near emits the
first-encounter dedup of the visited cells read with offset dx outer and dy
inner; each built cell holds its lines in insertion (append) order; the
result has no duplicates under line equality; and the result is unchanged
under any permutation of the insertion order. -/
theorem lines_near_two_level_order (rast : Line → List (ℤ × ℤ)) (cs : ℚ) (L L2 : List Line)
    (p : Vector2D) (r : ℕ) (hperm : L.Perm L2)
    (hdisj : L.Pairwise (fun l1 l2 => ∀ cell, cell ∈ rast l1 → cell ∉ rast l2)) :
    Grid.lines_near (Grid.new rast L cs) p r = dedupFirst (Grid.cellScan (Grid.new rast L cs) p r)
    ∧ (∀ cell, (Grid.new rast L cs).cells cell = L.filter (fun l => decide (cell ∈ rast l)))
    ∧ (Grid.lines_near (Grid.new rast L cs) p r).Pairwise (fun a b => ¬ lineEq a b)
    ∧ Grid.lines_near (Grid.new rast L2 cs) p r = Grid.lines_near (Grid.new rast L cs) p r := by
  have hcells : ∀ (M : List Line) (cell : ℤ × ℤ),
      (Grid.new rast M cs).cells cell = M.filter (fun l => decide (cell ∈ rast l)) := by
    intro M cell
    rw [Grid.new, foldl_add_line_cells]
    rfl
  refine ⟨rfl, hcells L, dedupFirst_go_pairwise _ [] (List.Pairwise.nil), ?_⟩
  have hcs : ∀ M : List Line, (Grid.new rast M cs).cell_size = cs := by
    intro M
    rw [Grid.new, foldl_add_line_cell_size]
    rfl
  have hfun : (Grid.new rast L2 cs).cells = (Grid.new rast L cs).cells := by
    funext cell
    rw [hcells L, hcells L2]
    exact perm_length_le_one_eq (hperm.filter _).symm (filter_disjoint_length_le_one rast L hdisj cell)
  unfold Grid.lines_near Grid.cellScan
  rw [hfun, hcs L, hcs L2]

/-- A rasterization placing each line in the single cell named by its id,
for the C3 witness. -/
def rastById : Line → List (ℤ × ℤ) := fun l => [(l.id, 0)]

/-- A second line with id 1, cell-disjoint from defaultLine under rastById,
for the C3 witness. -/
def lineB : Line := { defaultLine with id := 1 }

/-- Witness for C3: two cell-disjoint lines inserted in either order give
the same lines_near answer. -/
theorem lines_near_two_level_order_witness :
    Grid.lines_near (Grid.new rastById [lineB, defaultLine] 14) ⟨0, 0⟩ 1 =
      Grid.lines_near (Grid.new rastById [defaultLine, lineB] 14) ⟨0, 0⟩ 1 :=
  (lines_near_two_level_order rastById 14 [defaultLine, lineB] [lineB, defaultLine] ⟨0, 0⟩ 1
    (List.Perm.swap lineB defaultLine [])
    (by
      refine List.Pairwise.cons ?_ (List.pairwise_singleton _ _)
      intro l2 hl2 cell hc
      rw [List.mem_singleton] at hl2
      subst hl2
      simp only [rastById, defaultLine, lineB, List.mem_singleton] at hc ⊢
      subst hc
      decide)).2.2.2

namespace RealModel

/-- Helper: the nested qualification cascade of distance_below_line equals a
single conjunction test. -/
theorem qualification_cascade (c1 : Prop) [Decidable c1] (par e1 e2 len d g : ℝ) :
    (if ¬c1 then (0 : ℝ)
     else if par < -e1 ∨ e2 + len < par then 0
     else if 0 < d ∧ d < g then d else 0)
      = if c1 ∧ (-e1 ≤ par ∧ par ≤ len + e2) ∧ (0 < d ∧ d < g) then d else 0 := by
  split_ifs with h1 h2 h3 h4 h5 h6 h7 <;> try rfl
  · rcases h2 with hb | hb
    · linarith [h3.2.1.1]
    · linarith [h3.2.1.2]
  · push_neg at h2
    exact absurd ⟨h1, ⟨h2.1, by linarith [h2.2]⟩, h4⟩ h5
  · exact absurd h6.2.2 h4
  · exact absurd h7.1 h1

/-- C6: distance_below_line returns the penetration depth
(-perpendicular) dot (point - end0) exactly when the point moves into the
line, its projection on the unit direction lies within the extended span
[-extL, length + extR] (each extension clamp(length * extension_ratio, 0, 10)
when that end is flagged, else 0), and the depth lies strictly between 0 and
the gravity-well height; in every other case it returns 0. -/
theorem distance_below_line_qualification (gravity_well_height : ℝ) (line : Line)
    (point : EntityPoint) :
    distance_below_line gravity_well_height line point =
      if (line.perpendicular.dot_product point.momentum < 0
          ∧ (-(if line.ends.1.extended then
                max 0 (min (Real.sqrt line.length_squared * line.extension_ratio) 10) else 0)
              ≤ (point.location - line.ends.1.location).dot_product
                  (line.as_vector2d / Real.sqrt line.as_vector2d.length_squared)
            ∧ (point.location - line.ends.1.location).dot_product
                  (line.as_vector2d / Real.sqrt line.as_vector2d.length_squared)
              ≤ Real.sqrt line.as_vector2d.length_squared
                + (if line.ends.2.extended then
                    max 0 (min (Real.sqrt line.length_squared * line.extension_ratio) 10) else 0))
          ∧ (0 < (-line.perpendicular).dot_product (point.location - line.ends.1.location)
            ∧ (-line.perpendicular).dot_product (point.location - line.ends.1.location)
              < gravity_well_height))
      then (-line.perpendicular).dot_product (point.location - line.ends.1.location)
      else 0 := by
  unfold distance_below_line Line.hitbox_extensions
  dsimp only
  exact qualification_cascade _ _ _ _ _ _ _
